import Mathlib

/-!
Verification of the scene-graph and animation core of the FNAF-OpenGL demo.

The repository has two source files: `src/include/TranslationAnimation.h`
(the concrete translation animation) and `src/src/main.cpp` (the demo
scenes, the FNAF interaction handlers and the frame loop).  The abstract
`Animation` base class, the `Animator` sequencer and the `Object3D` scene
node live in headers that are not part of the repository snapshot; those
are modelled from the specification (spec.md sections 3, 4.1-4.4) and are
marked as such in their doc comments.

Scalars are embedded as rationals (exact arithmetic standing in for the
C++ `float`s); 3-vectors as a structure of three rationals.
-/

/-- A 3-component vector over the rationals, standing in for `glm::vec3`. -/
structure Vec3 where
  x : ℚ
  y : ℚ
  z : ℚ
deriving DecidableEq, Repr

instance : Add Vec3 :=
  ⟨fun a b => ⟨a.x + b.x, a.y + b.y, a.z + b.z⟩⟩

instance : Zero Vec3 :=
  ⟨⟨0, 0, 0⟩⟩

instance : SMul ℚ Vec3 :=
  ⟨fun q v => ⟨q * v.x, q * v.y, q * v.z⟩⟩

/-- Componentwise division of a vector by a scalar, `glm` vector `/` scalar. -/
def Vec3.divScalar (v : Vec3) (q : ℚ) : Vec3 :=
  ⟨v.x / q, v.y / q, v.z / q⟩

theorem Vec3.add_def (a b : Vec3) : a + b = ⟨a.x + b.x, a.y + b.y, a.z + b.z⟩ := rfl

theorem Vec3.smul_def (q : ℚ) (v : Vec3) : q • v = ⟨q * v.x, q * v.y, q * v.z⟩ := rfl

theorem Vec3.zero_def : (0 : Vec3) = ⟨0, 0, 0⟩ := rfl

theorem Vec3.add_zero (v : Vec3) : v + 0 = v := by
  cases v; simp [Vec3.add_def, Vec3.zero_def]

theorem Vec3.zero_add (v : Vec3) : 0 + v = v := by
  cases v; simp [Vec3.add_def, Vec3.zero_def]

theorem Vec3.add_comm (a b : Vec3) : a + b = b + a := by
  cases a; cases b; simp [Vec3.add_def]; constructor
  · ring
  constructor
  · ring
  · ring

theorem Vec3.add_assoc (a b c : Vec3) : a + b + c = a + (b + c) := by
  cases a; cases b; cases c; simp [Vec3.add_def]; constructor
  · ring
  constructor
  · ring
  · ring

theorem Vec3.add_smul (p q : ℚ) (v : Vec3) : (p + q) • v = p • v + q • v := by
  cases v; simp [Vec3.smul_def, Vec3.add_def]; constructor
  · ring
  constructor
  · ring
  · ring

theorem Vec3.zero_smul (v : Vec3) : (0 : ℚ) • v = 0 := by
  cases v; simp [Vec3.smul_def, Vec3.zero_def]

theorem Vec3.smul_divScalar (q : ℚ) (hq : q ≠ 0) (v : Vec3) :
    q • v.divScalar q = v := by
  cases v
  simp only [Vec3.divScalar, Vec3.smul_def, Vec3.mk.injEq]
  refine ⟨?_, ?_, ?_⟩ <;> field_simp

/-- Replace the `n`-th element of a list by applying `f` to it; identity when
`n` is out of range.  Models an in-place mutation of one list element. -/
def updateNth (n : Nat) (f : α → α) : List α → List α
  | [] => []
  | a :: as =>
    match n with
    | 0 => f a :: as
    | Nat.succ m => a :: updateNth m f as

theorem updateNth_nil (n : Nat) (f : α → α) : updateNth n f ([] : List α) = [] := by
  simp [updateNth]

theorem updateNth_get?_self (n : Nat) (f : α → α) (l : List α) :
    (updateNth n f l)[n]? = l[n]?.map f := by
  induction l generalizing n with
  | nil => simp [updateNth]
  | cons a as ih =>
    cases n with
    | zero => simp [updateNth]
    | succ m => simpa [updateNth] using ih m

theorem updateNth_get?_ne (n m : Nat) (f : α → α) (l : List α) (h : m ≠ n) :
    (updateNth n f l)[m]? = l[m]? := by
  induction l generalizing n m with
  | nil => simp [updateNth]
  | cons a as ih =>
    cases n with
    | zero =>
      cases m with
      | zero => exact absurd rfl h
      | succ k => simp [updateNth]
    | succ j =>
      cases m with
      | zero => simp [updateNth]
      | succ k =>
        simp only [updateNth, List.getElem?_cons_succ]
        exact ih j k (fun hk => h (by rw [hk]))

theorem updateNth_length (n : Nat) (f : α → α) (l : List α) :
    (updateNth n f l).length = l.length := by
  induction l generalizing n with
  | nil => simp [updateNth]
  | cons a as ih =>
    cases n with
    | zero => simp [updateNth]
    | succ m => simpa [updateNth] using ih m

theorem updateNth_updateNth (n : Nat) (f g : α → α) (l : List α) :
    updateNth n f (updateNth n g l) = updateNth n (fun a => f (g a)) l := by
  induction l generalizing n with
  | nil => simp [updateNth]
  | cons a as ih =>
    cases n with
    | zero => simp [updateNth]
    | succ m => simpa [updateNth] using ih m

theorem updateNth_id (n : Nat) (f : α → α) (l : List α) (hf : ∀ a, f a = a) :
    updateNth n f l = l := by
  induction l generalizing n with
  | nil => simp [updateNth]
  | cons a as ih =>
    cases n with
    | zero => simp [updateNth, hf]
    | succ m => simpa [updateNth] using ih m

/-- Modelled from the spec: the Transform-Node / Scene-Object type of
`Object3D.h`, which is not in the repository snapshot.  A Scene Object owns
a position, an orientation (Euler angles), a componentwise scale, and a
list of exclusively owned children (spec sections 3 and 4.1-4.2).
Renderable surfaces are opaque to the core and are omitted. -/
inductive Object3D where
  | mk (position orientation scale : Vec3) (children : List Object3D)

def Object3D.position : Object3D → Vec3
  | .mk p _ _ _ => p

def Object3D.orientation : Object3D → Vec3
  | .mk _ o _ _ => o

def Object3D.scale : Object3D → Vec3
  | .mk _ _ s _ => s

def Object3D.children : Object3D → List Object3D
  | .mk _ _ _ c => c

/-- Modelled from the spec: `move(delta)` adds delta to the position
(spec section 4.1); children are untouched. -/
def Object3D.move (delta : Vec3) : Object3D → Object3D
  | .mk p o s c => .mk (p + delta) o s c

/-- Modelled from the spec: `setPosition` performs absolute assignment
(spec section 4.1). -/
def Object3D.setPosition (pos : Vec3) : Object3D → Object3D
  | .mk _ o s c => .mk pos o s c

/-- Modelled from the spec: `setOrientation` performs absolute assignment
(spec section 4.1). -/
def Object3D.setOrientation (orient : Vec3) : Object3D → Object3D
  | .mk p _ s c => .mk p orient s c

/-- Modelled from the spec: `rotate(delta)` adds delta to the orientation
(spec section 4.1). -/
def Object3D.rotate (delta : Vec3) : Object3D → Object3D
  | .mk p o s c => .mk p (o + delta) s c

theorem Object3D.move_position (delta : Vec3) (o : Object3D) :
    (o.move delta).position = o.position + delta := by
  cases o; rfl

theorem Object3D.move_children (delta : Vec3) (o : Object3D) :
    (o.move delta).children = o.children := by
  cases o; rfl

theorem Object3D.move_orientation (delta : Vec3) (o : Object3D) :
    (o.move delta).orientation = o.orientation := by
  cases o; rfl

theorem Object3D.move_scale (delta : Vec3) (o : Object3D) :
    (o.move delta).scale = o.scale := by
  cases o; rfl

theorem Object3D.move_move (a b : Vec3) (o : Object3D) :
    (o.move a).move b = o.move (a + b) := by
  cases o; simp [Object3D.move, Vec3.add_assoc]

theorem Object3D.move_zero (o : Object3D) : o.move 0 = o := by
  cases o; simp [Object3D.move, Vec3.add_zero]

theorem Object3D.setPosition_position (pos : Vec3) (o : Object3D) :
    (o.setPosition pos).position = pos := by
  cases o; rfl

/-- Componentwise scaling of a vector, the scale part of the local transform. -/
def scaleApply (s v : Vec3) : Vec3 :=
  ⟨s.x * v.x, s.y * v.y, s.z * v.z⟩

theorem scaleApply_zero (s : Vec3) : scaleApply s 0 = 0 := by
  simp [scaleApply, Vec3.zero_def]

theorem scaleApply_one (v : Vec3) : scaleApply ⟨1, 1, 1⟩ v = v := by
  cases v; simp [scaleApply]

/-- Modelled from the spec: the local transform of a Scene Object applied to
a point of its local space, `translate * rotate * scale` with translation
outermost (spec section 3).  The rotation is kept abstract as a function
`R` from an Euler-angle triple to the linear map it denotes, since its
trigonometric entries are irrelevant to the claims; theorems that need
facts about `R` (linearity at zero, identity at zero angles) take them as
hypotheses. -/
def applyLocal (R : Vec3 → Vec3 → Vec3) (o : Object3D) (v : Vec3) : Vec3 :=
  o.position + R o.orientation (scaleApply o.scale v)

/-- The descendant of an object reached by a path of child indices. -/
def descendant : Object3D → List Nat → Option Object3D
  | o, [] => some o
  | o, i :: p =>
    match o.children[i]? with
    | some c => descendant c p
    | none => none

/-- Modelled from the spec: the world-space position of the descendant at
the given path, obtained by composing the local transforms from the root
down, as `render` does with its accumulated model matrix (spec
section 4.2), and applying the composite to the local origin. -/
def framePos (R : Vec3 → Vec3 → Vec3) : Object3D → List Nat → Option Vec3
  | o, [] => some (applyLocal R o 0)
  | o, i :: p =>
    match o.children[i]? with
    | some c => (framePos R c p).map (applyLocal R o)
    | none => none

/-- Every node on the path strictly above the endpoint sits at the local
origin with zero orientation and unit scale. -/
def ancestorsTrivial : Object3D → List Nat → Bool
  | _, [] => true
  | o, i :: p =>
    (decide (o.position = 0 ∧ o.orientation = 0 ∧ o.scale = ⟨1, 1, 1⟩)) &&
      (match o.children[i]? with
       | some c => ancestorsTrivial c p
       | none => false)

theorem framePos_nil (R : Vec3 → Vec3 → Vec3) (hR0 : ∀ a, R a 0 = 0) (o : Object3D) :
    framePos R o [] = some o.position := by
  simp [framePos, applyLocal, scaleApply_zero, hR0, Vec3.add_zero]

theorem framePos_cons (R : Vec3 → Vec3 → Vec3) (o c : Object3D) (i : Nat) (p : List Nat)
    (hc : o.children[i]? = some c) :
    framePos R o (i :: p) = (framePos R c p).map (applyLocal R o) := by
  simp [framePos, hc]

/-- Under trivial ancestors the accumulated transform is the identity, so
the endpoint's world position is just its own local position. -/
theorem framePos_of_ancestorsTrivial (R : Vec3 → Vec3 → Vec3)
    (hR0 : ∀ a, R a 0 = 0) (hRid : ∀ v, R 0 v = v) :
    ∀ (p : List Nat) (o d : Object3D), ancestorsTrivial o p = true →
      descendant o p = some d → framePos R o p = some d.position := by
  intro p
  induction p with
  | nil =>
    intro o d _ hd
    simp only [descendant, Option.some.injEq] at hd
    subst hd
    exact framePos_nil R hR0 o
  | cons i p ih =>
    intro o d htriv hd
    simp only [ancestorsTrivial, Bool.and_eq_true, decide_eq_true_eq] at htriv
    obtain ⟨⟨hpos, hor, hsc⟩, hrest⟩ := htriv
    cases hcg : o.children[i]? with
    | none => simp [hcg] at hrest
    | some c =>
      rw [hcg] at hrest
      simp only [descendant, hcg] at hd
      rw [framePos_cons R o c i p hcg, ih c d hrest hd]
      simp [applyLocal, hpos, hor, hsc, scaleApply_one, hRid, Vec3.zero_add]


/-- The state of one animation.  The fields `duration`, `elapsed` and
`running` are the abstract `Animation` base state (spec section 3: duration
in seconds, elapsed starting at 0, running starting false); `targetIdx` is
the non-owning reference to the target Scene Object, modelled as an index
into the scene's object list; `m_perSecond` is the per-second displacement
of `TranslationAnimation` (src/include/TranslationAnimation.h line 12). -/
structure Animation where
  targetIdx : Nat
  duration : ℚ
  elapsed : ℚ
  running : Bool
  m_perSecond : Vec3
deriving DecidableEq, Repr

/-- Modelled from the spec: `start()` resets elapsed = 0 and sets
running = true (spec section 4.3); `Animation.h` is not in the snapshot. -/
def Animation.start (a : Animation) : Animation :=
  { a with elapsed := 0, running := true }

/-- `applyAnimation(dt)` of TranslationAnimation
(src/include/TranslationAnimation.h lines 17-19):
`object().move(m_perSecond * dt)`. -/
def Animation.applyAnimation (a : Animation) (dt : ℚ) (objs : List Object3D) :
    List Object3D :=
  updateNth a.targetIdx (Object3D.move (dt • a.m_perSecond)) objs

/-- Modelled from the spec: `tick(dt)` of the abstract `Animation` (spec
section 4.3, `Animation.h` not in the snapshot): no-op if not running;
otherwise clamps the delta to the time remaining of the duration, applies
the per-kind update with the clamped delta, accumulates elapsed by at most
the remaining time, and sets running = false once elapsed reaches the
duration. -/
def Animation.tick (dt : ℚ) (a : Animation) (objs : List Object3D) :
    Animation × List Object3D :=
  if a.running then
    let d := min dt (a.duration - a.elapsed)
    let e := a.elapsed + d
    ({ a with elapsed := e, running := decide (e < a.duration) },
      a.applyAnimation d objs)
  else
    (a, objs)

/-- The `TranslationAnimation` constructor
(src/include/TranslationAnimation.h lines 26-27): the base `Animation`
state is initialised with the duration (elapsed 0, not running, spec
section 3) and `m_perSecond` is computed once as `moveBy / duration`. -/
def TranslationAnimation (targetIdx : Nat) (duration : ℚ) (moveBy : Vec3) :
    Animation :=
  { targetIdx := targetIdx
    duration := duration
    elapsed := 0
    running := false
    m_perSecond := moveBy.divScalar duration }

/-- Repeatedly tick one animation with the given list of frame deltas. -/
def runTicks (dts : List ℚ) (s : Animation × List Object3D) :
    Animation × List Object3D :=
  dts.foldl (fun s dt => Animation.tick dt s.1 s.2) s

theorem Animation.tick_running (dt : ℚ) (a : Animation) (objs : List Object3D)
    (h : a.running = true) :
    Animation.tick dt a objs =
      ({ a with elapsed := a.elapsed + min dt (a.duration - a.elapsed),
                running := decide (a.elapsed + min dt (a.duration - a.elapsed) < a.duration) },
        a.applyAnimation (min dt (a.duration - a.elapsed)) objs) := by
  simp [Animation.tick, h]

theorem Animation.tick_not_running (dt : ℚ) (a : Animation) (objs : List Object3D)
    (h : a.running = false) :
    Animation.tick dt a objs = (a, objs) := by
  simp [Animation.tick, h]

theorem min_add_clamp (e dt D : ℚ) : e + min dt (D - e) = min (e + dt) D := by
  rcases le_total dt (D - e) with h | h
  · rw [min_eq_left h, min_eq_left (by linarith)]
  · rw [min_eq_right h, min_eq_right (by linarith)]
    ring

/-- The closed-form behaviour of a translation animation under a run of
ticks: starting from a state whose elapsed time is `min s D` for the sum
`s` of the deltas already consumed, whose running flag agrees with
`elapsed < duration`, and whose target has been displaced by
`elapsed • perSecond`, the run with further non-negative deltas `dts`
lands in the analogous state for `s + dts.sum`. -/
theorem runTicks_closed (i : Nat) (D : ℚ) (per : Vec3) (objs0 : List Object3D) :
    ∀ (dts : List ℚ), (∀ dt ∈ dts, 0 ≤ dt) → ∀ (e : ℚ), e ≤ D →
      runTicks dts
        ({ targetIdx := i, duration := D, elapsed := e,
           running := decide (e < D), m_perSecond := per },
         updateNth i (Object3D.move (e • per)) objs0)
      = ({ targetIdx := i, duration := D, elapsed := min (e + dts.sum) D,
           running := decide (min (e + dts.sum) D < D), m_perSecond := per },
         updateNth i (Object3D.move ((min (e + dts.sum) D) • per)) objs0) := by
  intro dts
  induction dts with
  | nil =>
    intro _ e he
    have hm : min (e + ([] : List ℚ).sum) D = e := by
      simp only [List.sum_nil, add_zero]
      exact min_eq_left he
    simp only [runTicks, List.foldl_nil, hm]
  | cons dt dts ih =>
    intro hnn e he
    have hdt : 0 ≤ dt := hnn dt (List.mem_cons_self dt dts)
    have hnn' : ∀ d ∈ dts, 0 ≤ d := fun d hd => hnn d (List.mem_cons_of_mem dt hd)
    have hsum : 0 ≤ dts.sum := List.sum_nonneg hnn'
    by_cases hrun : e < D
    · have step : Animation.tick dt
          ({ targetIdx := i, duration := D, elapsed := e,
             running := decide (e < D), m_perSecond := per } : Animation)
          (updateNth i (Object3D.move (e • per)) objs0)
        = ({ targetIdx := i, duration := D, elapsed := min (e + dt) D,
             running := decide (min (e + dt) D < D), m_perSecond := per },
           updateNth i (Object3D.move ((min (e + dt) D) • per)) objs0) := by
        rw [Animation.tick_running _ _ _ (by simp [hrun])]
        simp only [Animation.applyAnimation]
        rw [updateNth_updateNth]
        have harith : e + min dt (D - e) = min (e + dt) D := min_add_clamp e dt D
        have hmv : (fun o => Object3D.move (min dt (D - e) • per) (Object3D.move (e • per) o))
            = Object3D.move (min (e + dt) D • per) := by
          funext o
          rw [Object3D.move_move, ← Vec3.add_smul, harith]
        rw [hmv, harith]
      have he' : min (e + dt) D ≤ D := min_le_right _ _
      have tail := ih hnn' (min (e + dt) D) he'
      have hshift : min (e + dt) D + dts.sum ≤ e + dt + dts.sum ∧
          min (min (e + dt) D + dts.sum) D = min (e + (dt + dts.sum)) D := by
        constructor
        · have := min_le_left (e + dt) D
          linarith
        · rcases le_total (e + dt) D with hle | hle
          · rw [min_eq_left hle, add_assoc]
          · rw [min_eq_right hle]
            have h1 : D ≤ D + dts.sum := by linarith
            rw [min_eq_right h1]
            have h2 : D ≤ e + (dt + dts.sum) := by linarith
            rw [min_eq_right h2]
      simp only [runTicks, List.foldl_cons] at *
      rw [step]
      rw [tail]
      rw [hshift.2, List.sum_cons]
    · have heD : e = D := le_antisymm he (not_lt.mp hrun)
      have step : Animation.tick dt
          ({ targetIdx := i, duration := D, elapsed := e,
             running := decide (e < D), m_perSecond := per } : Animation)
          (updateNth i (Object3D.move (e • per)) objs0)
        = ({ targetIdx := i, duration := D, elapsed := e,
             running := decide (e < D), m_perSecond := per },
           updateNth i (Object3D.move (e • per)) objs0) := by
        apply Animation.tick_not_running
        simp [hrun]
      have tail := ih hnn' e he
      have hmin1 : min (e + dts.sum) D = e := by
        rw [heD]; exact min_eq_right (by linarith)
      have hmin2 : min (e + (dt + dts.sum)) D = e := by
        rw [heD]; exact min_eq_right (by linarith)
      simp only [runTicks, List.foldl_cons] at *
      rw [step, tail, hmin1, List.sum_cons, hmin2]

/-- Running a freshly constructed and started translation animation:
elapsed becomes the delta sum clamped at the duration, and the target has
been displaced by that clamped time at the precomputed rate. -/
theorem runTicks_start (i : Nat) (D : ℚ) (T : Vec3) (objs : List Object3D)
    (dts : List ℚ) (hD : 0 < D) (hnn : ∀ dt ∈ dts, 0 ≤ dt) :
    runTicks dts ((TranslationAnimation i D T).start, objs)
      = ({ targetIdx := i, duration := D, elapsed := min dts.sum D,
           running := decide (min dts.sum D < D),
           m_perSecond := T.divScalar D },
         updateNth i (Object3D.move ((min dts.sum D) • T.divScalar D)) objs) := by
  have hstart : (TranslationAnimation i D T).start
      = { targetIdx := i, duration := D, elapsed := 0,
          running := decide ((0 : ℚ) < D), m_perSecond := T.divScalar D } := by
    simp [TranslationAnimation, Animation.start, hD]
  have hobjs : objs = updateNth i (Object3D.move ((0 : ℚ) • T.divScalar D)) objs := by
    rw [Vec3.zero_smul]
    exact (updateNth_id i _ objs Object3D.move_zero).symm
  rw [hstart]
  calc runTicks dts
        ({ targetIdx := i, duration := D, elapsed := 0,
           running := decide ((0 : ℚ) < D), m_perSecond := T.divScalar D },
         objs)
      = runTicks dts
        ({ targetIdx := i, duration := D, elapsed := 0,
           running := decide ((0 : ℚ) < D), m_perSecond := T.divScalar D },
         updateNth i (Object3D.move ((0 : ℚ) • T.divScalar D)) objs) := by
          rw [← hobjs]
    _ = _ := by
          rw [runTicks_closed i D (T.divScalar D) objs dts hnn 0 (le_of_lt hD)]
          simp only [zero_add]

/-- C1: a `TranslationAnimation` with duration `D > 0` and total
displacement `T`, started and then ticked with non-negative deltas whose
sum reaches `D`, displaces its target by exactly `T` over its whole life
(the final tick is clamped, so the total never overshoots), ends with
elapsed exactly `D`, and is no longer running. -/
theorem C1_total_displacement_exact (i : Nat) (D : ℚ) (T : Vec3)
    (objs : List Object3D) (dts : List ℚ)
    (hD : 0 < D) (hnn : ∀ dt ∈ dts, 0 ≤ dt) (hsum : D ≤ dts.sum) :
    (runTicks dts ((TranslationAnimation i D T).start, objs)).2
        = updateNth i (Object3D.move T) objs ∧
    (runTicks dts ((TranslationAnimation i D T).start, objs)).1.elapsed = D ∧
    (runTicks dts ((TranslationAnimation i D T).start, objs)).1.running = false := by
  rw [runTicks_start i D T objs dts hD hnn]
  have hmin : min dts.sum D = D := min_eq_right hsum
  rw [hmin]
  refine ⟨?_, rfl, by simp⟩
  rw [Vec3.smul_divScalar D (ne_of_gt hD) T]

/-- C1 witness: one object, duration 1, displacement (1,2,3), ticked with
two quarters and a half. -/
theorem C1_total_displacement_exact_witness :
    (runTicks [1/4, 1/4, 1/2]
        ((TranslationAnimation 0 1 ⟨1, 2, 3⟩).start,
         [Object3D.mk 0 0 ⟨1, 1, 1⟩ []])).2
      = updateNth 0 (Object3D.move ⟨1, 2, 3⟩) [Object3D.mk 0 0 ⟨1, 1, 1⟩ []] ∧
    (runTicks [1/4, 1/4, 1/2]
        ((TranslationAnimation 0 1 ⟨1, 2, 3⟩).start,
         [Object3D.mk 0 0 ⟨1, 1, 1⟩ []])).1.elapsed = 1 ∧
    (runTicks [1/4, 1/4, 1/2]
        ((TranslationAnimation 0 1 ⟨1, 2, 3⟩).start,
         [Object3D.mk 0 0 ⟨1, 1, 1⟩ []])).1.running = false :=
  C1_total_displacement_exact 0 1 ⟨1, 2, 3⟩ [Object3D.mk 0 0 ⟨1, 1, 1⟩ []]
    [1/4, 1/4, 1/2] (by norm_num)
    (by intro dt h; fin_cases h <;> norm_num) (by norm_num)

/-- C4: the per-second rate of a `TranslationAnimation` is the field
`m_perSecond`, computed once at construction as `moveBy / duration`
(equal to `(1/duration) • moveBy`), and a tick whose delta does not exceed
the remaining time changes the target's position by exactly
`m_perSecond * dt` through the target's `move` operation. -/
theorem C4_rate_precomputed_once (i : Nat) (D dt : ℚ) (T : Vec3)
    (a : Animation) (objs : List Object3D)
    (hrun : a.running = true) (hdt : dt ≤ a.duration - a.elapsed) :
    (TranslationAnimation i D T).m_perSecond = T.divScalar D ∧
    (TranslationAnimation i D T).m_perSecond = (1 / D) • T ∧
    (Animation.tick dt a objs).2
        = updateNth a.targetIdx (Object3D.move (dt • a.m_perSecond)) objs := by
  refine ⟨rfl, ?_, ?_⟩
  · cases T
    simp only [TranslationAnimation, Vec3.divScalar, Vec3.smul_def, Vec3.mk.injEq]
    refine ⟨?_, ?_, ?_⟩ <;> ring
  · rw [Animation.tick_running dt a objs hrun]
    simp only [Animation.applyAnimation]
    rw [min_eq_left hdt]

/-- C4 witness: a started translation animation of duration 2, ticked by 1. -/
theorem C4_rate_precomputed_once_witness :
    (TranslationAnimation 0 2 ⟨2, 0, 0⟩).m_perSecond = Vec3.divScalar ⟨2, 0, 0⟩ 2 ∧
    (TranslationAnimation 0 2 ⟨2, 0, 0⟩).m_perSecond = ((1 : ℚ) / 2) • (⟨2, 0, 0⟩ : Vec3) ∧
    (Animation.tick 1 ((TranslationAnimation 0 2 ⟨2, 0, 0⟩).start)
        [Object3D.mk 0 0 ⟨1, 1, 1⟩ []]).2
      = updateNth ((TranslationAnimation 0 2 ⟨2, 0, 0⟩).start).targetIdx
          (Object3D.move ((1 : ℚ) • ((TranslationAnimation 0 2 ⟨2, 0, 0⟩).start).m_perSecond))
          [Object3D.mk 0 0 ⟨1, 1, 1⟩ []] :=
  C4_rate_precomputed_once 0 2 1 ⟨2, 0, 0⟩
    ((TranslationAnimation 0 2 ⟨2, 0, 0⟩).start)
    [Object3D.mk 0 0 ⟨1, 1, 1⟩ []] (by rfl) (by norm_num [TranslationAnimation, Animation.start])

/-- C5: splitting the duration `D` into `N` equal sub-ticks yields a final
animation state and a final object state that do not depend on `N`: for
every `N ≥ 1` the run ends at elapsed `D`, not running, with the target
displaced by exactly `T`. -/
theorem C5_subdivision_independent (i : Nat) (D : ℚ) (T : Vec3)
    (objs : List Object3D) (N : ℕ) (hN : 1 ≤ N) (hD : 0 < D) :
    runTicks (List.replicate N (D / N)) ((TranslationAnimation i D T).start, objs)
      = ({ targetIdx := i, duration := D, elapsed := D, running := false,
           m_perSecond := T.divScalar D },
         updateNth i (Object3D.move T) objs) := by
  have hNQ : (N : ℚ) ≠ 0 := Nat.cast_ne_zero.mpr (by omega)
  have hnn : ∀ dt ∈ List.replicate N (D / N), 0 ≤ dt := by
    intro dt h
    rw [List.eq_of_mem_replicate h]
    positivity
  have hsum : (List.replicate N (D / N)).sum = D := by
    rw [List.sum_replicate, nsmul_eq_mul]
    field_simp
  rw [runTicks_start i D T objs _ hD hnn, hsum]
  have hmin : min D D = D := min_self D
  rw [hmin]
  simp only [lt_self_iff_false, decide_False]
  rw [Vec3.smul_divScalar D (ne_of_gt hD) T]

/-- C5 witness: duration 1, displacement (3,0,0), split into 2 sub-ticks. -/
theorem C5_subdivision_independent_witness :
    runTicks (List.replicate 2 ((1 : ℚ) / (2 : ℕ)))
        ((TranslationAnimation 0 1 ⟨3, 0, 0⟩).start, [Object3D.mk 0 0 ⟨1, 1, 1⟩ []])
      = ({ targetIdx := 0, duration := 1, elapsed := 1, running := false,
           m_perSecond := Vec3.divScalar ⟨3, 0, 0⟩ 1 },
         updateNth 0 (Object3D.move ⟨3, 0, 0⟩) [Object3D.mk 0 0 ⟨1, 1, 1⟩ []]) :=
  C5_subdivision_independent 0 1 ⟨3, 0, 0⟩ [Object3D.mk 0 0 ⟨1, 1, 1⟩ []] 2
    (by norm_num) (by norm_num)

/-- One call in the public lifecycle of an animation: `start()` or
`tick(dt)`. -/
inductive AnimOp where
  | start : AnimOp
  | tick : ℚ → AnimOp
deriving DecidableEq, Repr

/-- Run a sequence of `start()`/`tick(dt)` calls on an animation and the
object list its target lives in. -/
def runOps (ops : List AnimOp) (s : Animation × List Object3D) :
    Animation × List Object3D :=
  ops.foldl
    (fun s op =>
      match op with
      | AnimOp.start => (s.1.start, s.2)
      | AnimOp.tick dt => Animation.tick dt s.1 s.2)
    s

/-- The lifecycle invariant of an animation of duration `D`: elapsed never
exceeds `D`, and the running flag is cleared as soon as elapsed reaches
`D`. -/
def animInv (D : ℚ) (a : Animation) : Prop :=
  a.duration = D ∧ a.elapsed ≤ D ∧ (a.running = true → a.elapsed < D)

theorem animInv_start (D : ℚ) (hD : 0 < D) (a : Animation) (h : animInv D a) :
    animInv D a.start := by
  obtain ⟨hdur, _, _⟩ := h
  exact ⟨hdur, by simp [Animation.start, hdur]; linarith,
    fun _ => by simp [Animation.start, hdur]; linarith⟩

theorem animInv_tick (D dt : ℚ) (a : Animation) (objs : List Object3D)
    (h : animInv D a) : animInv D (Animation.tick dt a objs).1 := by
  obtain ⟨hdur, hle, hlt⟩ := h
  cases hrun : a.running with
  | false => rw [Animation.tick_not_running dt a objs hrun]; exact ⟨hdur, hle, hlt⟩
  | true =>
    rw [Animation.tick_running dt a objs hrun]
    refine ⟨hdur, ?_, ?_⟩
    · simp only [hdur, min_add_clamp]
      exact min_le_right _ _
    · intro hr
      simp only [decide_eq_true_eq] at hr
      simpa [hdur] using hr

theorem runOps_inv (D : ℚ) (hD : 0 < D) :
    ∀ (ops : List AnimOp) (s : Animation × List Object3D),
      animInv D s.1 → animInv D (runOps ops s).1 := by
  intro ops
  induction ops with
  | nil => intro s h; simpa [runOps] using h
  | cons op ops ih =>
    intro s h
    simp only [runOps, List.foldl_cons] at *
    cases op with
    | start => exact ih _ (animInv_start D hD s.1 h)
    | tick dt => exact ih _ (animInv_tick D dt s.1 s.2 h)

/-- C8: over any sequence of `start()` and `tick(dt)` calls on a
translation animation of duration `D > 0` with non-negative deltas,
elapsed never exceeds the duration, and whenever the running flag is
still set the elapsed time is strictly below the duration (running is
cleared once elapsed reaches `D`). -/
theorem C8_elapsed_never_exceeds_duration (i : Nat) (D : ℚ) (T : Vec3)
    (objs : List Object3D) (ops : List AnimOp)
    (hD : 0 < D) (_hnn : ∀ dt, AnimOp.tick dt ∈ ops → 0 ≤ dt) :
    (runOps ops (TranslationAnimation i D T, objs)).1.elapsed ≤ D ∧
    ((runOps ops (TranslationAnimation i D T, objs)).1.running = true →
      (runOps ops (TranslationAnimation i D T, objs)).1.elapsed < D) := by
  have hinit : animInv D (TranslationAnimation i D T) :=
    ⟨rfl, by simp [TranslationAnimation]; linarith, by simp [TranslationAnimation]⟩
  have h := runOps_inv D hD ops (TranslationAnimation i D T, objs) hinit
  exact ⟨h.2.1, h.2.2⟩

/-- C8 witness: duration 1, started, ticked by 0.75 twice and 5 once. -/
theorem C8_elapsed_never_exceeds_duration_witness :
    (runOps [AnimOp.start, AnimOp.tick (3/4), AnimOp.tick (3/4), AnimOp.tick 5]
        (TranslationAnimation 0 1 ⟨1, 0, 0⟩, [Object3D.mk 0 0 ⟨1, 1, 1⟩ []])).1.elapsed ≤ 1 ∧
    ((runOps [AnimOp.start, AnimOp.tick (3/4), AnimOp.tick (3/4), AnimOp.tick 5]
        (TranslationAnimation 0 1 ⟨1, 0, 0⟩, [Object3D.mk 0 0 ⟨1, 1, 1⟩ []])).1.running = true →
      (runOps [AnimOp.start, AnimOp.tick (3/4), AnimOp.tick (3/4), AnimOp.tick 5]
        (TranslationAnimation 0 1 ⟨1, 0, 0⟩, [Object3D.mk 0 0 ⟨1, 1, 1⟩ []])).1.elapsed < 1) :=
  C8_elapsed_never_exceeds_duration 0 1 ⟨1, 0, 0⟩ [Object3D.mk 0 0 ⟨1, 1, 1⟩ []]
    [AnimOp.start, AnimOp.tick (3/4), AnimOp.tick (3/4), AnimOp.tick 5]
    (by norm_num)
    (by
      intro dt h
      simp only [List.mem_cons, List.not_mem_nil, or_false] at h
      rcases h with h | h | h | h
      · exact absurd h (by simp)
      · rw [AnimOp.tick.injEq] at h; rw [h]; norm_num
      · rw [AnimOp.tick.injEq] at h; rw [h]; norm_num
      · rw [AnimOp.tick.injEq] at h; rw [h]; norm_num)

/-- C3: moving a parent Scene Object by `V` leaves the stored local
transform of every descendant unchanged, shifts the rendered world
position of every descendant by exactly `V`, and, when the parent and the
intermediate nodes on the path sit at the local origin with zero
orientation and unit scale, places the descendant at its own local
position plus `V`.  `R` is the interpretation of Euler angles as a linear
map; it is assumed to be linear at the origin (`R a 0 = 0`) and the
identity at zero angles. -/
theorem C3_move_parent_shifts_descendants (R : Vec3 → Vec3 → Vec3)
    (hR0 : ∀ a, R a 0 = 0) (hRid : ∀ v, R 0 v = v)
    (P : Object3D) (V : Vec3) (i : Nat) (p : List Nat) (d : Object3D)
    (hd : descendant P (i :: p) = some d) :
    descendant (P.move V) (i :: p) = some d ∧
    framePos R (P.move V) (i :: p) = (framePos R P (i :: p)).map (· + V) ∧
    (ancestorsTrivial P (i :: p) = true →
      framePos R (P.move V) (i :: p) = some (d.position + V)) := by
  cases hcg : P.children[i]? with
  | none => simp [descendant, hcg] at hd
  | some c =>
    have hcg' : (P.move V).children[i]? = some c := by
      rw [Object3D.move_children]; exact hcg
    have hdc : descendant c p = some d := by
      simpa [descendant, hcg] using hd
    refine ⟨by simp [descendant, hcg', hdc], ?_, ?_⟩
    · rw [framePos_cons R P c i p hcg, framePos_cons R (P.move V) c i p hcg']
      have hloc : ∀ w, applyLocal R (P.move V) w = applyLocal R P w + V := by
        intro w
        simp only [applyLocal, Object3D.move_position, Object3D.move_orientation,
          Object3D.move_scale]
        rw [Vec3.add_comm P.position V, Vec3.add_assoc,
          Vec3.add_comm V (P.position + R P.orientation (scaleApply P.scale w))]
      cases framePos R c p with
      | none => simp
      | some w => simp [hloc]
    · intro htriv
      simp only [ancestorsTrivial, Bool.and_eq_true, decide_eq_true_eq, hcg] at htriv
      obtain ⟨⟨hpos, hor, hsc⟩, hrest⟩ := htriv
      rw [framePos_cons R (P.move V) c i p hcg',
        framePos_of_ancestorsTrivial R hR0 hRid p c d hrest hdc]
      rw [Option.map_some']
      congr 1
      simp only [applyLocal, Object3D.move_position, Object3D.move_orientation,
        Object3D.move_scale, hpos, hor, hsc, scaleApply_one]
      rw [hRid, Vec3.zero_add, Vec3.add_comm]

/-- C3 witness: a parent at the origin with one child at (1,2,3) and a
grandchild at (10,0,0), moved by (5,5,5); the rotation interpretation is
instantiated at the identity, which satisfies both hypotheses. -/
theorem C3_move_parent_shifts_descendants_witness :
    descendant
        ((Object3D.mk 0 0 ⟨1, 1, 1⟩
          [Object3D.mk ⟨1, 2, 3⟩ 0 ⟨1, 1, 1⟩ [Object3D.mk ⟨10, 0, 0⟩ 0 ⟨1, 1, 1⟩ []]]).move
          ⟨5, 5, 5⟩) [0]
      = some (Object3D.mk ⟨1, 2, 3⟩ 0 ⟨1, 1, 1⟩ [Object3D.mk ⟨10, 0, 0⟩ 0 ⟨1, 1, 1⟩ []]) ∧
    framePos (fun _ v => v)
        ((Object3D.mk 0 0 ⟨1, 1, 1⟩
          [Object3D.mk ⟨1, 2, 3⟩ 0 ⟨1, 1, 1⟩ [Object3D.mk ⟨10, 0, 0⟩ 0 ⟨1, 1, 1⟩ []]]).move
          ⟨5, 5, 5⟩) [0]
      = (framePos (fun _ v => v)
          (Object3D.mk 0 0 ⟨1, 1, 1⟩
            [Object3D.mk ⟨1, 2, 3⟩ 0 ⟨1, 1, 1⟩ [Object3D.mk ⟨10, 0, 0⟩ 0 ⟨1, 1, 1⟩ []]]) [0]).map
          (· + ⟨5, 5, 5⟩) ∧
    (ancestorsTrivial
        (Object3D.mk 0 0 ⟨1, 1, 1⟩
          [Object3D.mk ⟨1, 2, 3⟩ 0 ⟨1, 1, 1⟩ [Object3D.mk ⟨10, 0, 0⟩ 0 ⟨1, 1, 1⟩ []]]) [0] = true →
      framePos (fun _ v => v)
          ((Object3D.mk 0 0 ⟨1, 1, 1⟩
            [Object3D.mk ⟨1, 2, 3⟩ 0 ⟨1, 1, 1⟩ [Object3D.mk ⟨10, 0, 0⟩ 0 ⟨1, 1, 1⟩ []]]).move
            ⟨5, 5, 5⟩) [0]
        = some ((Object3D.mk ⟨1, 2, 3⟩ 0 ⟨1, 1, 1⟩
            [Object3D.mk ⟨10, 0, 0⟩ 0 ⟨1, 1, 1⟩ []]).position + ⟨5, 5, 5⟩)) :=
  C3_move_parent_shifts_descendants (fun _ v => v) (fun _ => rfl) (fun _ => rfl)
    (Object3D.mk 0 0 ⟨1, 1, 1⟩
      [Object3D.mk ⟨1, 2, 3⟩ 0 ⟨1, 1, 1⟩ [Object3D.mk ⟨10, 0, 0⟩ 0 ⟨1, 1, 1⟩ []]])
    ⟨5, 5, 5⟩ 0 [] _ rfl

/-- Modelled from the spec: the `Animator` sequencer (`Animator.h` is not
in the snapshot): an ordered list of owned animations and the index of the
current one (spec sections 3 and 4.4). -/
structure Animator where
  animations : List Animation
  currentIndex : Nat
deriving DecidableEq, Repr

/-- Modelled from the spec: `Animator.start()` explicitly starts the
animation at the current index (spec section 4.4). -/
def Animator.start (an : Animator) : Animator :=
  { an with animations := updateNth an.currentIndex Animation.start an.animations }

/-- Modelled from the spec: `Animator.addAnimation` appends without
auto-starting (spec section 4.4). -/
def Animator.addAnimation (a : Animation) (an : Animator) : Animator :=
  { an with animations := an.animations ++ [a] }

/-- Modelled from the spec: `Animator.tick(dt)` (spec section 4.4): when a
current animation exists and is running, forward the full frame delta to
it; if that call completes it, increment the index and start the next
animation when one exists — without forwarding any part of `dt` to it; past
the end of the sequence, ticks are ignored. -/
def Animator.tick (dt : ℚ) (an : Animator) (objs : List Object3D) :
    Animator × List Object3D :=
  match an.animations[an.currentIndex]? with
  | none => (an, objs)
  | some cur =>
    if cur.running then
      let p := Animation.tick dt cur objs
      let anims1 := updateNth an.currentIndex (fun _ => p.1) an.animations
      if p.1.running then
        ({ animations := anims1, currentIndex := an.currentIndex }, p.2)
      else
        match anims1[an.currentIndex + 1]? with
        | some nxt =>
          ({ animations := updateNth (an.currentIndex + 1) (fun _ => nxt.start) anims1,
             currentIndex := an.currentIndex + 1 }, p.2)
        | none =>
          ({ animations := anims1, currentIndex := an.currentIndex + 1 }, p.2)
    else (an, objs)

theorem Animator.tick_past_end (dt : ℚ) (an : Animator) (objs : List Object3D)
    (h : an.animations[an.currentIndex]? = none) :
    Animator.tick dt an objs = (an, objs) := by
  simp [Animator.tick, h]

/-- C2: when the current animation `k` of an Animator completes during a
`tick(dt)` call, that same call increments the index to `k+1` and starts
animation `k+1` when it exists — the slot `k+1` afterwards holds exactly
`Animation.start` of its old contents, so no portion of `dt` reached it,
and the objects were only updated by animation `k`'s own tick; when no
animation `k+1` exists the index still moves past the end and any further
tick leaves the Animator and the objects unchanged. -/
theorem C2_completion_advances_without_forwarding (an : Animator)
    (objs objs' : List Object3D) (dt dt' : ℚ) (cur : Animation)
    (hcur : an.animations[an.currentIndex]? = some cur)
    (hrun : cur.running = true)
    (hstop : (Animation.tick dt cur objs).1.running = false) :
    (Animator.tick dt an objs).1.currentIndex = an.currentIndex + 1 ∧
    (Animator.tick dt an objs).2 = (Animation.tick dt cur objs).2 ∧
    (Animator.tick dt an objs).1.animations[an.currentIndex + 1]?
      = an.animations[an.currentIndex + 1]?.map Animation.start ∧
    (an.animations[an.currentIndex + 1]? = none →
      Animator.tick dt' (Animator.tick dt an objs).1 objs'
        = ((Animator.tick dt an objs).1, objs')) := by
  have hne : an.currentIndex + 1 ≠ an.currentIndex := by omega
  cases hnxt : an.animations[an.currentIndex + 1]? with
  | some nxt =>
    have hnxt1 : (updateNth an.currentIndex (fun _ => (Animation.tick dt cur objs).1)
        an.animations)[an.currentIndex + 1]? = some nxt := by
      rw [updateNth_get?_ne _ _ _ _ hne]; exact hnxt
    have hres : Animator.tick dt an objs
        = ({ animations := updateNth (an.currentIndex + 1) (fun _ => nxt.start)
               (updateNth an.currentIndex (fun _ => (Animation.tick dt cur objs).1)
                 an.animations),
             currentIndex := an.currentIndex + 1 }, (Animation.tick dt cur objs).2) := by
      simp only [Animator.tick, hcur, hrun, if_true, hstop, Bool.false_eq_true, if_false,
        hnxt1]
    rw [hres]
    refine ⟨rfl, rfl, ?_, ?_⟩
    · simp [hnxt, updateNth_get?_self, hnxt1]
    · intro hcontra
      simp [hcontra] at hnxt
      exact Option.noConfusion hcontra
  | none =>
    have hnxt1 : (updateNth an.currentIndex (fun _ => (Animation.tick dt cur objs).1)
        an.animations)[an.currentIndex + 1]? = none := by
      rw [updateNth_get?_ne _ _ _ _ hne]; exact hnxt
    have hres : Animator.tick dt an objs
        = ({ animations := updateNth an.currentIndex
               (fun _ => (Animation.tick dt cur objs).1) an.animations,
             currentIndex := an.currentIndex + 1 }, (Animation.tick dt cur objs).2) := by
      simp only [Animator.tick, hcur, hrun, if_true, hstop, Bool.false_eq_true, if_false,
        hnxt1]
    rw [hres]
    refine ⟨rfl, rfl, ?_, ?_⟩
    · simp [hnxt, hnxt1]
    · intro _
      exact Animator.tick_past_end dt' _ objs' hnxt1

/-- C2 witness: an Animator with a started 1-second animation followed by
an unstarted 2-second one, ticked by exactly 1 second: the first completes,
the index advances, and the second is started with no delta applied. -/
theorem C2_completion_advances_without_forwarding_witness :
    (Animator.tick 1
        ⟨[(TranslationAnimation 0 1 ⟨1, 0, 0⟩).start, TranslationAnimation 0 2 ⟨0, 1, 0⟩], 0⟩
        [Object3D.mk 0 0 ⟨1, 1, 1⟩ []]).1.currentIndex = 1 ∧
    (Animator.tick 1
        ⟨[(TranslationAnimation 0 1 ⟨1, 0, 0⟩).start, TranslationAnimation 0 2 ⟨0, 1, 0⟩], 0⟩
        [Object3D.mk 0 0 ⟨1, 1, 1⟩ []]).2
      = (Animation.tick 1 ((TranslationAnimation 0 1 ⟨1, 0, 0⟩).start)
          [Object3D.mk 0 0 ⟨1, 1, 1⟩ []]).2 ∧
    (Animator.tick 1
        ⟨[(TranslationAnimation 0 1 ⟨1, 0, 0⟩).start, TranslationAnimation 0 2 ⟨0, 1, 0⟩], 0⟩
        [Object3D.mk 0 0 ⟨1, 1, 1⟩ []]).1.animations[1]?
      = ([(TranslationAnimation 0 1 ⟨1, 0, 0⟩).start,
          TranslationAnimation 0 2 ⟨0, 1, 0⟩] : List Animation)[1]?.map Animation.start ∧
    (([(TranslationAnimation 0 1 ⟨1, 0, 0⟩).start,
        TranslationAnimation 0 2 ⟨0, 1, 0⟩] : List Animation)[1]? = none →
      Animator.tick 1
          (Animator.tick 1
            ⟨[(TranslationAnimation 0 1 ⟨1, 0, 0⟩).start, TranslationAnimation 0 2 ⟨0, 1, 0⟩], 0⟩
            [Object3D.mk 0 0 ⟨1, 1, 1⟩ []]).1 [Object3D.mk 0 0 ⟨1, 1, 1⟩ []]
        = ((Animator.tick 1
            ⟨[(TranslationAnimation 0 1 ⟨1, 0, 0⟩).start, TranslationAnimation 0 2 ⟨0, 1, 0⟩], 0⟩
            [Object3D.mk 0 0 ⟨1, 1, 1⟩ []]).1, [Object3D.mk 0 0 ⟨1, 1, 1⟩ []])) :=
  C2_completion_advances_without_forwarding
    ⟨[(TranslationAnimation 0 1 ⟨1, 0, 0⟩).start, TranslationAnimation 0 2 ⟨0, 1, 0⟩], 0⟩
    [Object3D.mk 0 0 ⟨1, 1, 1⟩ []] [Object3D.mk 0 0 ⟨1, 1, 1⟩ []] 1 1
    ((TranslationAnimation 0 1 ⟨1, 0, 0⟩).start) rfl rfl
    (by norm_num [Animation.tick, TranslationAnimation, Animation.start])

/-- C7 counterexample: constructing a `TranslationAnimation` with the
non-positive duration `-1` is not rejected and does not fail fast: the
constructor (src/include/TranslationAnimation.h lines 26-27) performs no
validation and silently yields an ordinary animation value whose rate was
computed as `moveBy / (-1) = -moveBy`. -/
theorem C7_nonpositive_duration_not_rejected :
    TranslationAnimation 0 (-1) ⟨1, 0, 0⟩
      = { targetIdx := 0, duration := -1, elapsed := 0, running := false,
          m_perSecond := ⟨-1, 0, 0⟩ } := by
  simp only [TranslationAnimation, Vec3.divScalar, Animation.mk.injEq, Vec3.mk.injEq]
  norm_num

/-- C7 amended: a non-positive (here: negative) duration is silently
accepted, not rejected: the constructor computes the rate as
`moveBy / duration` with no fail-fast check, and once started such an
animation is not clamped either — its first tick with any non-negative
delta applies the whole displacement at once and stops. -/
theorem C7_negative_duration_silently_accepted (i : Nat) (d dt : ℚ) (T : Vec3)
    (objs : List Object3D) (hd : d < 0) (hdt : 0 ≤ dt) :
    TranslationAnimation i d T
      = { targetIdx := i, duration := d, elapsed := 0, running := false,
          m_perSecond := T.divScalar d } ∧
    (Animation.tick dt ((TranslationAnimation i d T).start) objs).2
      = updateNth i (Object3D.move T) objs ∧
    (Animation.tick dt ((TranslationAnimation i d T).start) objs).1.running = false := by
  refine ⟨rfl, ?_, ?_⟩
  · rw [Animation.tick_running _ _ _ (by simp [TranslationAnimation, Animation.start])]
    simp only [Animation.applyAnimation, TranslationAnimation, Animation.start]
    have hmin : min dt (d - 0) = d := by
      rw [sub_zero]
      exact min_eq_right (by linarith)
    rw [hmin, Vec3.smul_divScalar d (ne_of_lt hd) T]
  · rw [Animation.tick_running _ _ _ (by simp [TranslationAnimation, Animation.start])]
    have hmin : min dt ((TranslationAnimation i d T).start.duration
        - (TranslationAnimation i d T).start.elapsed) = d := by
      simp only [TranslationAnimation, Animation.start, sub_zero]
      exact min_eq_right (by linarith)
    simp [hmin, TranslationAnimation, Animation.start]
    linarith

/-- C7 amended witness: duration `-1`, displacement `(1,2,0)`, one tick of
length 1. -/
theorem C7_negative_duration_silently_accepted_witness :
    TranslationAnimation 0 (-1) (⟨1, 2, 0⟩ : Vec3)
      = { targetIdx := 0, duration := -1, elapsed := 0, running := false,
          m_perSecond := Vec3.divScalar ⟨1, 2, 0⟩ (-1) } ∧
    (Animation.tick 1 ((TranslationAnimation 0 (-1) (⟨1, 2, 0⟩ : Vec3)).start)
        [Object3D.mk 0 0 ⟨1, 1, 1⟩ []]).2
      = updateNth 0 (Object3D.move ⟨1, 2, 0⟩) [Object3D.mk 0 0 ⟨1, 1, 1⟩ []] ∧
    (Animation.tick 1 ((TranslationAnimation 0 (-1) (⟨1, 2, 0⟩ : Vec3)).start)
        [Object3D.mk 0 0 ⟨1, 1, 1⟩ []]).1.running = false :=
  C7_negative_duration_silently_accepted 0 (-1) 1 ⟨1, 2, 0⟩
    [Object3D.mk 0 0 ⟨1, 1, 1⟩ []] (by norm_num) (by norm_num)

/-- One step of the body of the demo's frame loop
(src/src/main.cpp lines 489-613), named in source order. -/
inductive FrameStep where
  | pollEvents
  | computeDeltaTime
  | movementStep
  | foxyStep
  | securityForwardStep
  | cameraYawStep
  | renderSecurityPass
  | setupPlayerCamera
  | tickAnimatorsStep
  | renderPlayerPass
  | displayStep
deriving DecidableEq, Repr

/-- The frame-loop body of `main` (src/src/main.cpp lines 489-613) as the
ordered list of its steps: poll window events (door and camera actions),
compute the frame delta, player movement, the Foxy scripted event, the
security camera forward vector, the security camera yaw pan, the
off-screen security render pass, the player camera setup, the Animator
ticks (`for (auto& anim : myScene.animators) anim.tick(...)`, lines
600-602), the on-screen player render pass, and the present. -/
def frameLoopBody : List FrameStep :=
  [FrameStep.pollEvents, FrameStep.computeDeltaTime, FrameStep.movementStep,
   FrameStep.foxyStep, FrameStep.securityForwardStep, FrameStep.cameraYawStep,
   FrameStep.renderSecurityPass, FrameStep.setupPlayerCamera,
   FrameStep.tickAnimatorsStep, FrameStep.renderPlayerPass, FrameStep.displayStep]

/-- C6 counterexample: it is not the case that the Animators are ticked
before both render passes of the frame: in the loop body the off-screen
security-camera pass (src/src/main.cpp lines 559-579) comes before the
Animator ticks (lines 600-602). -/
theorem C6_not_ticked_before_both_passes :
    ¬(frameLoopBody.indexOf FrameStep.tickAnimatorsStep
        < frameLoopBody.indexOf FrameStep.renderSecurityPass ∧
      frameLoopBody.indexOf FrameStep.tickAnimatorsStep
        < frameLoopBody.indexOf FrameStep.renderPlayerPass) := by
  decide

/-- C6 amended: in every frame-loop iteration input is polled and the
camera state updated first, then the off-screen security pass renders
(consuming the previous tick's transforms), then all Animators are ticked
exactly once, and only then the on-screen player pass renders (consuming
the transforms updated this frame), followed by the present. -/
theorem C6_animators_ticked_between_passes :
    frameLoopBody.indexOf FrameStep.pollEvents
      < frameLoopBody.indexOf FrameStep.renderSecurityPass ∧
    frameLoopBody.indexOf FrameStep.cameraYawStep
      < frameLoopBody.indexOf FrameStep.renderSecurityPass ∧
    frameLoopBody.indexOf FrameStep.renderSecurityPass
      < frameLoopBody.indexOf FrameStep.tickAnimatorsStep ∧
    frameLoopBody.indexOf FrameStep.tickAnimatorsStep
      < frameLoopBody.indexOf FrameStep.renderPlayerPass ∧
    frameLoopBody.indexOf FrameStep.renderPlayerPass
      < frameLoopBody.indexOf FrameStep.displayStep ∧
    frameLoopBody.count FrameStep.tickAnimatorsStep = 1 := by
  decide

/-- `glm::clamp` on one scalar: `min(max(x, lo), hi)`. -/
def clampQ (x lo hi : ℚ) : ℚ :=
  min (max x lo) hi

/-- `glm::clamp` componentwise on a `glm::vec3`. -/
def clampVec (v lo hi : Vec3) : Vec3 :=
  ⟨clampQ v.x lo.x hi.x, clampQ v.y lo.y hi.y, clampQ v.z lo.z hi.z⟩

theorem clampQ_const (x c : ℚ) : clampQ x c c = c :=
  min_eq_right (le_max_right x c)

theorem clampQ_le_hi (x lo hi : ℚ) : clampQ x lo hi ≤ hi :=
  min_le_right _ _

theorem clampQ_ge_lo (x lo hi : ℚ) (h : lo ≤ hi) : lo ≤ clampQ x lo hi :=
  le_min (le_max_right x lo) h

/-- The SFML keys that the FNAF event handlers react to. -/
inductive FKey where
  | q
  | e
  | otherKey
deriving DecidableEq, Repr

/-- A window event as seen by `doorAction`: a key press or anything else. -/
inductive FEvent where
  | keyPressed (k : FKey)
  | otherEvent
deriving DecidableEq, Repr

/-- The scene aggregate of `main.cpp` (struct `Scene`, lines 25-29):
objects and animators (the shader program is opaque to the core). -/
structure SceneS where
  objects : List Object3D
  animators : List Animator

/-- The key-handling half of `doorAction` (src/src/main.cpp lines
314-341): on `Q`, toggle the left door, starting animator 1 (left down)
or 3 (left up); on `E`, toggle the right door, starting animator 0
(right down) or 2 (right up).  Returns the scene and the updated
(leftDoorClosed, rightDoorClosed) flags. -/
def doorToggles (ev : FEvent) (scene : SceneS) (leftDoorClosed rightDoorClosed : Bool) :
    SceneS × Bool × Bool :=
  let p1 : SceneS × Bool :=
    if ev = FEvent.keyPressed FKey.q then
      if leftDoorClosed = false then
        ({ scene with animators := updateNth 1 Animator.start scene.animators }, true)
      else
        ({ scene with animators := updateNth 3 Animator.start scene.animators }, false)
    else (scene, leftDoorClosed)
  let p2 : SceneS × Bool :=
    if ev = FEvent.keyPressed FKey.e then
      if rightDoorClosed = false then
        ({ p1.1 with animators := updateNth 0 Animator.start p1.1.animators }, true)
      else
        ({ p1.1 with animators := updateNth 2 Animator.start p1.1.animators }, false)
    else (p1.1, rightDoorClosed)
  (p2.1, p1.2, p2.2)

/-- `doorAction` (src/src/main.cpp lines 314-345): handle the key
toggles, then unconditionally clamp the right door (objects[6]) into
[(0.85,-0.5,4.25), (0.85,0.65,4.25)] and the left door (objects[7]) into
[(-0.525,-0.5,4.25), (-0.525,0.65,4.25)] (lines 343-344). -/
def doorAction (ev : FEvent) (scene : SceneS) (leftDoorClosed rightDoorClosed : Bool) :
    SceneS × Bool × Bool :=
  let t := doorToggles ev scene leftDoorClosed rightDoorClosed
  let objs1 := updateNth 6
    (fun o => o.setPosition (clampVec o.position ⟨0.85, -0.5, 4.25⟩ ⟨0.85, 0.65, 4.25⟩))
    t.1.objects
  let objs2 := updateNth 7
    (fun o => o.setPosition (clampVec o.position ⟨-0.525, -0.5, 4.25⟩ ⟨-0.525, 0.65, 4.25⟩))
    objs1
  ({ t.1 with objects := objs2 }, t.2)

theorem doorToggles_objects (ev : FEvent) (scene : SceneS) (l r : Bool) :
    (doorToggles ev scene l r).1.objects = scene.objects := by
  simp only [doorToggles]
  by_cases hq : ev = FEvent.keyPressed FKey.q <;>
    by_cases hl : l = false <;>
    by_cases he : ev = FEvent.keyPressed FKey.e <;>
    by_cases hr : r = false <;>
    simp [hq, hl, he, hr]

/-- C9: after any call to `doorAction`, whatever the event and whatever
the mid-flight door animations did before, the right door (objects[6])
holds the componentwise clamp of its prior position into
[(0.85,-0.5,4.25), (0.85,0.65,4.25)] and the left door (objects[7]) the
clamp of its prior position into [(-0.525,-0.5,4.25), (-0.525,0.65,4.25)];
in particular each door's x and z coordinates are the fixed constants and
its y coordinate lies in [-0.5, 0.65]. -/
theorem C9_doorAction_clamps_door_positions (ev : FEvent) (scene : SceneS)
    (l r : Bool) (o6 o7 : Object3D)
    (h6 : scene.objects[6]? = some o6) (h7 : scene.objects[7]? = some o7) :
    (doorAction ev scene l r).1.objects[6]?
      = some (o6.setPosition (clampVec o6.position ⟨0.85, -0.5, 4.25⟩ ⟨0.85, 0.65, 4.25⟩)) ∧
    (doorAction ev scene l r).1.objects[7]?
      = some (o7.setPosition (clampVec o7.position ⟨-0.525, -0.5, 4.25⟩ ⟨-0.525, 0.65, 4.25⟩)) ∧
    (clampVec o6.position ⟨0.85, -0.5, 4.25⟩ ⟨0.85, 0.65, 4.25⟩).x = 0.85 ∧
    (clampVec o6.position ⟨0.85, -0.5, 4.25⟩ ⟨0.85, 0.65, 4.25⟩).z = 4.25 ∧
    -0.5 ≤ (clampVec o6.position ⟨0.85, -0.5, 4.25⟩ ⟨0.85, 0.65, 4.25⟩).y ∧
    (clampVec o6.position ⟨0.85, -0.5, 4.25⟩ ⟨0.85, 0.65, 4.25⟩).y ≤ 0.65 ∧
    (clampVec o7.position ⟨-0.525, -0.5, 4.25⟩ ⟨-0.525, 0.65, 4.25⟩).x = -0.525 ∧
    (clampVec o7.position ⟨-0.525, -0.5, 4.25⟩ ⟨-0.525, 0.65, 4.25⟩).z = 4.25 ∧
    -0.5 ≤ (clampVec o7.position ⟨-0.525, -0.5, 4.25⟩ ⟨-0.525, 0.65, 4.25⟩).y ∧
    (clampVec o7.position ⟨-0.525, -0.5, 4.25⟩ ⟨-0.525, 0.65, 4.25⟩).y ≤ 0.65 := by
  have hobj : (doorAction ev scene l r).1.objects
      = updateNth 7
          (fun o => o.setPosition
            (clampVec o.position ⟨-0.525, -0.5, 4.25⟩ ⟨-0.525, 0.65, 4.25⟩))
          (updateNth 6
            (fun o => o.setPosition
              (clampVec o.position ⟨0.85, -0.5, 4.25⟩ ⟨0.85, 0.65, 4.25⟩))
            scene.objects) := by
    simp only [doorAction]
    rw [doorToggles_objects]
  refine ⟨?_, ?_, clampQ_const _ _, clampQ_const _ _,
    clampQ_ge_lo _ _ _ (by norm_num), clampQ_le_hi _ _ _,
    clampQ_const _ _, clampQ_const _ _,
    clampQ_ge_lo _ _ _ (by norm_num), clampQ_le_hi _ _ _⟩
  · rw [hobj, updateNth_get?_ne 7 6 _ _ (by omega), updateNth_get?_self, h6]
    rfl
  · rw [hobj, updateNth_get?_self, updateNth_get?_ne 6 7 _ _ (by omega), h7]
    rfl

/-- C9 witness: a scene with eight objects (doors at indices 6 and 7, the
right door above its upper stop, the left door below its lower stop), no
key pressed. -/
theorem C9_doorAction_clamps_door_positions_witness :
    (doorAction FEvent.otherEvent
        ⟨[Object3D.mk 0 0 ⟨1, 1, 1⟩ [], Object3D.mk 0 0 ⟨1, 1, 1⟩ [],
          Object3D.mk 0 0 ⟨1, 1, 1⟩ [], Object3D.mk 0 0 ⟨1, 1, 1⟩ [],
          Object3D.mk 0 0 ⟨1, 1, 1⟩ [], Object3D.mk 0 0 ⟨1, 1, 1⟩ [],
          Object3D.mk ⟨0.85, 0.9, 4.25⟩ 0 ⟨1, 1, 1⟩ [],
          Object3D.mk ⟨-0.525, -0.7, 4.25⟩ 0 ⟨1, 1, 1⟩ []],
         [⟨[], 0⟩, ⟨[], 0⟩, ⟨[], 0⟩, ⟨[], 0⟩]⟩ false false).1.objects[6]?
      = some ((Object3D.mk ⟨0.85, 0.9, 4.25⟩ 0 ⟨1, 1, 1⟩ []).setPosition
          (clampVec ⟨0.85, 0.9, 4.25⟩ ⟨0.85, -0.5, 4.25⟩ ⟨0.85, 0.65, 4.25⟩)) ∧
    (doorAction FEvent.otherEvent
        ⟨[Object3D.mk 0 0 ⟨1, 1, 1⟩ [], Object3D.mk 0 0 ⟨1, 1, 1⟩ [],
          Object3D.mk 0 0 ⟨1, 1, 1⟩ [], Object3D.mk 0 0 ⟨1, 1, 1⟩ [],
          Object3D.mk 0 0 ⟨1, 1, 1⟩ [], Object3D.mk 0 0 ⟨1, 1, 1⟩ [],
          Object3D.mk ⟨0.85, 0.9, 4.25⟩ 0 ⟨1, 1, 1⟩ [],
          Object3D.mk ⟨-0.525, -0.7, 4.25⟩ 0 ⟨1, 1, 1⟩ []],
         [⟨[], 0⟩, ⟨[], 0⟩, ⟨[], 0⟩, ⟨[], 0⟩]⟩ false false).1.objects[7]?
      = some ((Object3D.mk ⟨-0.525, -0.7, 4.25⟩ 0 ⟨1, 1, 1⟩ []).setPosition
          (clampVec ⟨-0.525, -0.7, 4.25⟩ ⟨-0.525, -0.5, 4.25⟩ ⟨-0.525, 0.65, 4.25⟩)) ∧
    (clampVec ⟨0.85, 0.9, 4.25⟩ ⟨0.85, -0.5, 4.25⟩ ⟨0.85, 0.65, 4.25⟩).x = 0.85 ∧
    (clampVec ⟨0.85, 0.9, 4.25⟩ ⟨0.85, -0.5, 4.25⟩ ⟨0.85, 0.65, 4.25⟩).z = 4.25 ∧
    -0.5 ≤ (clampVec ⟨0.85, 0.9, 4.25⟩ ⟨0.85, -0.5, 4.25⟩ ⟨0.85, 0.65, 4.25⟩).y ∧
    (clampVec ⟨0.85, 0.9, 4.25⟩ ⟨0.85, -0.5, 4.25⟩ ⟨0.85, 0.65, 4.25⟩).y ≤ 0.65 ∧
    (clampVec ⟨-0.525, -0.7, 4.25⟩ ⟨-0.525, -0.5, 4.25⟩ ⟨-0.525, 0.65, 4.25⟩).x = -0.525 ∧
    (clampVec ⟨-0.525, -0.7, 4.25⟩ ⟨-0.525, -0.5, 4.25⟩ ⟨-0.525, 0.65, 4.25⟩).z = 4.25 ∧
    -0.5 ≤ (clampVec ⟨-0.525, -0.7, 4.25⟩ ⟨-0.525, -0.5, 4.25⟩ ⟨-0.525, 0.65, 4.25⟩).y ∧
    (clampVec ⟨-0.525, -0.7, 4.25⟩ ⟨-0.525, -0.5, 4.25⟩ ⟨-0.525, 0.65, 4.25⟩).y ≤ 0.65 :=
  C9_doorAction_clamps_door_positions FEvent.otherEvent
    ⟨[Object3D.mk 0 0 ⟨1, 1, 1⟩ [], Object3D.mk 0 0 ⟨1, 1, 1⟩ [],
      Object3D.mk 0 0 ⟨1, 1, 1⟩ [], Object3D.mk 0 0 ⟨1, 1, 1⟩ [],
      Object3D.mk 0 0 ⟨1, 1, 1⟩ [], Object3D.mk 0 0 ⟨1, 1, 1⟩ [],
      Object3D.mk ⟨0.85, 0.9, 4.25⟩ 0 ⟨1, 1, 1⟩ [],
      Object3D.mk ⟨-0.525, -0.7, 4.25⟩ 0 ⟨1, 1, 1⟩ []],
     [⟨[], 0⟩, ⟨[], 0⟩, ⟨[], 0⟩, ⟨[], 0⟩]⟩ false false
    (Object3D.mk ⟨0.85, 0.9, 4.25⟩ 0 ⟨1, 1, 1⟩ [])
    (Object3D.mk ⟨-0.525, -0.7, 4.25⟩ 0 ⟨1, 1, 1⟩ []) rfl rfl

/-- The demo's `M_PI` constant (`std::numbers::pi_v<float>`,
src/src/main.cpp line 20), embedded as an exact rational stand-in for the
float constant; the panning-range properties depend only on its sign. -/
def M_PI : ℚ :=
  3.14159265358979323846

/-- The state of the panning security camera: the yaw angle `cameraYaw`
and the per-second pan rate `deltaYaw` (src/src/main.cpp lines 453-454). -/
structure CamPan where
  cameraYaw : ℚ
  deltaYaw : ℚ
deriving DecidableEq, Repr

/-- The per-frame security-camera pan update
(src/src/main.cpp lines 548-556): advance the yaw by
`deltaYaw * deltaTime`; if it passed `-M_PI/4`, pin it there and set
`deltaYaw = -abs(deltaYaw)`; if it passed `-3*M_PI/4`, pin it there and
set `deltaYaw = abs(deltaYaw)`. -/
def camUpdate (deltaTime : ℚ) (s : CamPan) : CamPan :=
  let y0 := s.cameraYaw + s.deltaYaw * deltaTime
  let s1 : CamPan := if y0 > -M_PI / 4 then ⟨-M_PI / 4, -|s.deltaYaw|⟩ else ⟨y0, s.deltaYaw⟩
  if s1.cameraYaw < -3 * M_PI / 4 then ⟨-3 * M_PI / 4, |s1.deltaYaw|⟩ else s1

theorem camUpdate_overshoot (deltaTime : ℚ) (s : CamPan)
    (h : s.cameraYaw + s.deltaYaw * deltaTime > -M_PI / 4) :
    camUpdate deltaTime s = ⟨-M_PI / 4, -|s.deltaYaw|⟩ := by
  simp only [camUpdate]
  rw [if_pos h, if_neg]
  show ¬(-M_PI / 4 < -3 * M_PI / 4)
  norm_num [M_PI]

theorem camUpdate_undershoot (deltaTime : ℚ) (s : CamPan)
    (h1 : ¬(s.cameraYaw + s.deltaYaw * deltaTime > -M_PI / 4))
    (h2 : s.cameraYaw + s.deltaYaw * deltaTime < -3 * M_PI / 4) :
    camUpdate deltaTime s = ⟨-3 * M_PI / 4, |s.deltaYaw|⟩ := by
  simp only [camUpdate]
  rw [if_neg h1, if_pos]
  exact h2

theorem camUpdate_inside (deltaTime : ℚ) (s : CamPan)
    (h1 : ¬(s.cameraYaw + s.deltaYaw * deltaTime > -M_PI / 4))
    (h2 : ¬(s.cameraYaw + s.deltaYaw * deltaTime < -3 * M_PI / 4)) :
    camUpdate deltaTime s = ⟨s.cameraYaw + s.deltaYaw * deltaTime, s.deltaYaw⟩ := by
  simp only [camUpdate]
  rw [if_neg h1, if_neg]
  exact h2

/-- C10: after every security-camera pan update the yaw lies in the
closed interval [-3π/4, -π/4]; when the update clamps the yaw at the
upper endpoint `-π/4` the pan rate is set non-positive, so the next
iteration's pre-clamp yaw does not exceed `-π/4`; symmetrically at the
lower endpoint the rate is set non-negative. -/
theorem C10_security_camera_yaw_bounded (s : CamPan) (dt : ℚ) (hdt : 0 ≤ dt) :
    (-3 * M_PI / 4 ≤ (camUpdate dt s).cameraYaw ∧
      (camUpdate dt s).cameraYaw ≤ -M_PI / 4) ∧
    (s.cameraYaw + s.deltaYaw * dt > -M_PI / 4 →
      (camUpdate dt s).cameraYaw = -M_PI / 4 ∧ (camUpdate dt s).deltaYaw ≤ 0 ∧
      (camUpdate dt s).cameraYaw + (camUpdate dt s).deltaYaw * dt ≤ -M_PI / 4) ∧
    (s.cameraYaw + s.deltaYaw * dt < -3 * M_PI / 4 →
      (camUpdate dt s).cameraYaw = -3 * M_PI / 4 ∧ 0 ≤ (camUpdate dt s).deltaYaw ∧
      -3 * M_PI / 4 ≤ (camUpdate dt s).cameraYaw + (camUpdate dt s).deltaYaw * dt) := by
  have hpi : (0 : ℚ) < M_PI := by norm_num [M_PI]
  by_cases h1 : s.cameraYaw + s.deltaYaw * dt > -M_PI / 4
  · rw [camUpdate_overshoot dt s h1]
    have habs : (0 : ℚ) ≤ |s.deltaYaw| := abs_nonneg _
    have hmul : -|s.deltaYaw| * dt ≤ 0 := by
      have := mul_nonneg habs hdt
      nlinarith
    refine ⟨⟨by linarith, le_refl _⟩, fun _ => ⟨rfl, neg_nonpos.mpr habs, by
      simp only []
      linarith⟩, fun hc => absurd hc (by linarith)⟩
  · by_cases h2 : s.cameraYaw + s.deltaYaw * dt < -3 * M_PI / 4
    · rw [camUpdate_undershoot dt s h1 h2]
      have habs : (0 : ℚ) ≤ |s.deltaYaw| := abs_nonneg _
      have hmul : 0 ≤ |s.deltaYaw| * dt := mul_nonneg habs hdt
      refine ⟨⟨le_refl _, by linarith⟩, fun hc => absurd hc h1, fun _ => ⟨rfl, habs, by
        simp only []
        linarith⟩⟩
    · rw [camUpdate_inside dt s h1 h2]
      push_neg at h1 h2
      exact ⟨⟨h2, h1⟩, fun hc => absurd hc (by linarith), fun hc => absurd hc (by linarith)⟩

/-- C10 witness: the initial state of the demo, `cameraYaw = -π/2`,
`deltaYaw = π/8` (src/src/main.cpp lines 453-454), with a frame delta of
one second. -/
theorem C10_security_camera_yaw_bounded_witness :
    (-3 * M_PI / 4 ≤ (camUpdate 1 ⟨-M_PI / 2, M_PI / 8⟩).cameraYaw ∧
      (camUpdate 1 ⟨-M_PI / 2, M_PI / 8⟩).cameraYaw ≤ -M_PI / 4) ∧
    ((⟨-M_PI / 2, M_PI / 8⟩ : CamPan).cameraYaw
        + (⟨-M_PI / 2, M_PI / 8⟩ : CamPan).deltaYaw * 1 > -M_PI / 4 →
      (camUpdate 1 ⟨-M_PI / 2, M_PI / 8⟩).cameraYaw = -M_PI / 4 ∧
      (camUpdate 1 ⟨-M_PI / 2, M_PI / 8⟩).deltaYaw ≤ 0 ∧
      (camUpdate 1 ⟨-M_PI / 2, M_PI / 8⟩).cameraYaw
          + (camUpdate 1 ⟨-M_PI / 2, M_PI / 8⟩).deltaYaw * 1 ≤ -M_PI / 4) ∧
    ((⟨-M_PI / 2, M_PI / 8⟩ : CamPan).cameraYaw
        + (⟨-M_PI / 2, M_PI / 8⟩ : CamPan).deltaYaw * 1 < -3 * M_PI / 4 →
      (camUpdate 1 ⟨-M_PI / 2, M_PI / 8⟩).cameraYaw = -3 * M_PI / 4 ∧
      0 ≤ (camUpdate 1 ⟨-M_PI / 2, M_PI / 8⟩).deltaYaw ∧
      -3 * M_PI / 4 ≤ (camUpdate 1 ⟨-M_PI / 2, M_PI / 8⟩).cameraYaw
          + (camUpdate 1 ⟨-M_PI / 2, M_PI / 8⟩).deltaYaw * 1) :=
  C10_security_camera_yaw_bounded ⟨-M_PI / 2, M_PI / 8⟩ 1 (by norm_num)
